import Mathlib

/-!
# Verification of the mpegvideo.c codec core (libav 11.12)

Shallow embedding of the parts of `libavcodec/mpegvideo.c` needed to settle
the frozen claims: the dequantizer variants, the slice row-range partition,
the Picture lifecycle operations, the unused-picture pool scan, the dummy
reference-frame substitution, the duplicate-context update, the
lowest-referenced-row bound, and `ff_set_qscale`.

C `int` arithmetic is modelled by `Int`; the arithmetic in the dequantizers
stays far below 2^31 for the coefficient/qscale/matrix ranges the codec
feeds it, so no wrap-around is modelled.  The three bit-level operations the
code uses on possibly-negative values (`x & 1`, `x ^ b` with `b ∈ {0,1}`,
`y | 1`) are modelled by explicit two's-complement-equivalent arithmetic
functions (`cLowBit`, `cXorBit`, `cOrOne`) so that everything evaluates.
-/

/-- Two's-complement `x & 1` (the low bit of `x`); for any integer this is
`x mod 2` with floor semantics, e.g. `(-1) & 1 = 1`. -/
def cLowBit (x : Int) : Int := x % 2

/-- Two's-complement `x ^ b` for `b ∈ {0,1}`: XOR with 1 flips the low bit. -/
def cXorBit (x b : Int) : Int :=
  if b = 0 then x else if x % 2 = 0 then x + 1 else x - 1

/-- Two's-complement `y | 1`: force the low bit on. -/
def cOrOne (y : Int) : Int := if y % 2 = 0 then y + 1 else y

/-- C arithmetic shift right by 3 (`>> 3`), i.e. floor division by 8. -/
def sar3 (x : Int) : Int := x.fdiv 8

/-- C arithmetic shift right by 4 (`>> 4`), i.e. floor division by 16. -/
def sar4 (x : Int) : Int := x.fdiv 16

/-- The context fields of `MpegEncContext` read by the dequantizers.
Quantization matrices hold `uint16_t` entries and scan tables `uint8_t`
entries, modelled as `Nat`-valued functions. -/
structure DeqCtx where
  block_last_index : Nat → Nat
  alternate_scan : Bool
  y_dc_scale : Int
  c_dc_scale : Int
  intra_matrix : Nat → Nat
  inter_matrix : Nat → Nat
  intra_perm : Nat → Nat
  inter_raster_end : Nat → Nat
  h263_aic : Bool
  ac_pred : Bool

/-- One nonzero-level step of `dct_unquantize_mpeg1_intra_c`:
negate if negative, `(level * qscale * matrix[j]) >> 3`, `(level-1)|1`,
negate back. -/
def mpeg1IntraLevel (qscale : Int) (m : Nat) (level : Int) : Int :=
  if level < 0 then -(cOrOne (sar3 ((-level) * qscale * (m : Int)) - 1))
  else cOrOne (sar3 (level * qscale * (m : Int)) - 1)

/-- One nonzero-level step of `dct_unquantize_mpeg1_inter_c`:
`(((level << 1) + 1) * qscale * matrix[j]) >> 4`, then `(level-1)|1`. -/
def mpeg1InterLevel (qscale : Int) (m : Nat) (level : Int) : Int :=
  if level < 0 then -(cOrOne (sar4 (((-level) * 2 + 1) * qscale * (m : Int)) - 1))
  else cOrOne (sar4 ((level * 2 + 1) * qscale * (m : Int)) - 1)

/-- One nonzero-level step of the mpeg2 intra dequantizers (no odd bias). -/
def mpeg2IntraLevel (qscale : Int) (m : Nat) (level : Int) : Int :=
  if level < 0 then -(sar3 ((-level) * qscale * (m : Int)))
  else sar3 (level * qscale * (m : Int))

/-- One nonzero-level step of `dct_unquantize_mpeg2_inter_c` (no odd bias). -/
def mpeg2InterLevel (qscale : Int) (m : Nat) (level : Int) : Int :=
  if level < 0 then -(sar4 (((-level) * 2 + 1) * qscale * (m : Int)))
  else sar4 ((level * 2 + 1) * qscale * (m : Int))

/-- One nonzero-level step of the h263 dequantizers:
`level * qmul ± qadd` with the sign of the level. -/
def h263Level (qmul qadd level : Int) : Int :=
  if level < 0 then level * qmul - qadd else level * qmul + qadd

/-- The dequantizer loop over the scan indices `is`: at each index `i`,
read the coefficient at the permuted position `perm i`, and when it is
nonzero replace it by `dq (perm i) level` (mirrors the `if (level)` guard
of the C loops).  `dq` is the per-variant nonzero-level kernel with
`qscale` and the matrix already applied. -/
def dqLoop (dq : Nat → Int → Int) (perm : Nat → Nat) :
    List Nat → List Int → List Int
  | [], b => b
  | i :: rest, b =>
      let j := perm i
      let level := b.getD j 0
      if level = 0 then dqLoop dq perm rest b
      else dqLoop dq perm rest (b.set j (dq j level))

/-- The dequantizer loop of the bit-exact variants: same as `dqLoop` but
also accumulating `sum += level` for each nonzero dequantized level. -/
def dqLoopSum (dq : Nat → Int → Int) (perm : Nat → Nat) :
    List Nat → List Int × Int → List Int × Int
  | [], p => p
  | i :: rest, p =>
      let j := perm i
      let level := p.1.getD j 0
      if level = 0 then dqLoopSum dq perm rest p
      else dqLoopSum dq perm rest (p.1.set j (dq j level), p.2 + dq j level)

/-- `dct_unquantize_mpeg1_intra_c`: DC scaled by the luma (`n < 4`) or
chroma DC scale, then the scan loop `i = 1 .. block_last_index` with the
mpeg1 intra kernel at position `intra_perm i`. -/
def dct_unquantize_mpeg1_intra_c (s : DeqCtx) (block : List Int) (n : Nat)
    (qscale : Int) : List Int :=
  let nCoeffs := s.block_last_index n
  let b := block.set 0
    (block.getD 0 0 * (if n < 4 then s.y_dc_scale else s.c_dc_scale))
  dqLoop (fun j level => mpeg1IntraLevel qscale (s.intra_matrix j) level)
    s.intra_perm (List.range' 1 nCoeffs) b

/-- `dct_unquantize_mpeg1_inter_c`: scan loop `i = 0 .. block_last_index`
with the mpeg1 inter kernel; no DC special case. -/
def dct_unquantize_mpeg1_inter_c (s : DeqCtx) (block : List Int) (n : Nat)
    (qscale : Int) : List Int :=
  let nCoeffs := s.block_last_index n
  dqLoop (fun j level => mpeg1InterLevel qscale (s.inter_matrix j) level)
    s.intra_perm (List.range' 0 (nCoeffs + 1)) block

/-- `dct_unquantize_mpeg2_intra_c` (the non-bit-exact legacy intra variant):
`nCoeffs` is 63 under alternate scan, else `block_last_index`; DC scaled;
scan loop with the mpeg2 intra kernel and no mismatch correction. -/
def dct_unquantize_mpeg2_intra_c (s : DeqCtx) (block : List Int) (n : Nat)
    (qscale : Int) : List Int :=
  let nCoeffs := if s.alternate_scan then 63 else s.block_last_index n
  let b := block.set 0
    (block.getD 0 0 * (if n < 4 then s.y_dc_scale else s.c_dc_scale))
  dqLoop (fun j level => mpeg2IntraLevel qscale (s.intra_matrix j) level)
    s.intra_perm (List.range' 1 nCoeffs) b

/-- `dct_unquantize_mpeg2_intra_bitexact`: as the plain mpeg2 intra variant
but threading `sum` (initialized to `-1`) through the loop and finally
executing `block[63] ^= sum & 1`. -/
def dct_unquantize_mpeg2_intra_bitexact (s : DeqCtx) (block : List Int)
    (n : Nat) (qscale : Int) : List Int :=
  let nCoeffs := if s.alternate_scan then 63 else s.block_last_index n
  let b := block.set 0
    (block.getD 0 0 * (if n < 4 then s.y_dc_scale else s.c_dc_scale))
  let p := dqLoopSum (fun j level => mpeg2IntraLevel qscale (s.intra_matrix j) level)
    s.intra_perm (List.range' 1 nCoeffs) (b, -1)
  p.1.set 63 (cXorBit (p.1.getD 63 0) (cLowBit p.2))

/-- `dct_unquantize_mpeg2_inter_c`: scan loop `i = 0 .. nCoeffs` with the
mpeg2 inter kernel, threading `sum` (initialized to `-1`), then
`block[63] ^= sum & 1`. -/
def dct_unquantize_mpeg2_inter_c (s : DeqCtx) (block : List Int) (n : Nat)
    (qscale : Int) : List Int :=
  let nCoeffs := if s.alternate_scan then 63 else s.block_last_index n
  let p := dqLoopSum (fun j level => mpeg2InterLevel qscale (s.inter_matrix j) level)
    s.intra_perm (List.range' 0 (nCoeffs + 1)) (block, -1)
  p.1.set 63 (cXorBit (p.1.getD 63 0) (cLowBit p.2))

/-- `dct_unquantize_h263_intra_c`: `qmul = qscale << 1`; unless `h263_aic`,
DC is scaled and `qadd = (qscale - 1) | 1` (else `qadd = 0`); the loop runs
in raster order `i = 1 .. nCoeffs` where `nCoeffs` is 63 under `ac_pred`,
else `inter_scantable.raster_end[block_last_index]`. -/
def dct_unquantize_h263_intra_c (s : DeqCtx) (block : List Int) (n : Nat)
    (qscale : Int) : List Int :=
  let qmul := qscale * 2
  let qadd := if s.h263_aic then 0 else cOrOne (qscale - 1)
  let b := if s.h263_aic then block
    else block.set 0
      (block.getD 0 0 * (if n < 4 then s.y_dc_scale else s.c_dc_scale))
  let nCoeffs := if s.ac_pred then 63
    else s.inter_raster_end (s.block_last_index n)
  dqLoop (fun _ level => h263Level qmul qadd level)
    (fun i => i) (List.range' 1 nCoeffs) b

/-- `dct_unquantize_h263_inter_c`: `qadd = (qscale - 1) | 1`,
`qmul = qscale << 1`, raster loop `i = 0 .. raster_end[block_last_index]`. -/
def dct_unquantize_h263_inter_c (s : DeqCtx) (block : List Int) (n : Nat)
    (qscale : Int) : List Int :=
  let qmul := qscale * 2
  let qadd := cOrOne (qscale - 1)
  let nCoeffs := s.inter_raster_end (s.block_last_index n)
  dqLoop (fun _ level => h263Level qmul qadd level)
    (fun i => i) (List.range' 0 (nCoeffs + 1)) block

/-- The all-zero 64-coefficient block. -/
def zeroBlock : List Int := List.replicate 64 0

/-! Basic loop lemmas. -/

theorem getD_replicate_zero (n i : Nat) : (List.replicate n (0 : Int)).getD i 0 = 0 := by
  induction n generalizing i with
  | zero => simp [List.getD]
  | succ m ih =>
    cases i with
    | zero => simp [List.replicate, List.getD]
    | succ k => simp only [List.replicate, List.getD_cons_succ]; exact ih k

theorem set_zero_replicate (n i : Nat) :
    (List.replicate n (0 : Int)).set i 0 = List.replicate n 0 := by
  induction n generalizing i with
  | zero => simp
  | succ m ih =>
    cases i with
    | zero => simp [List.replicate]
    | succ k => simp [List.replicate, ih k]

/-- The dequantizer loop leaves the all-zero block untouched: every read
level is zero, so the `if (level)` guard always skips. -/
theorem dqLoop_zeroBlock (dq : Nat → Int → Int) (perm : Nat → Nat)
    (is : List Nat) (n : Nat) :
    dqLoop dq perm is (List.replicate n 0) = List.replicate n 0 := by
  induction is with
  | nil => rfl
  | cons i rest ih => simp [dqLoop, getD_replicate_zero, ih]

/-- Same for the sum-threading loop: the block and the running sum are
both unchanged on the all-zero block. -/
theorem dqLoopSum_zeroBlock (dq : Nat → Int → Int) (perm : Nat → Nat)
    (is : List Nat) (n : Nat) (sum : Int) :
    dqLoopSum dq perm is (List.replicate n 0, sum) = (List.replicate n 0, sum) := by
  induction is with
  | nil => rfl
  | cons i rest ih => simp [dqLoopSum, getD_replicate_zero, ih]

theorem dqLoop_nil (dq : Nat → Int → Int) (perm : Nat → Nat) (b : List Int) :
    dqLoop dq perm [] b = b := rfl

theorem dqLoop_cons (dq : Nat → Int → Int) (perm : Nat → Nat) (a : Nat)
    (rest : List Nat) (b : List Int) :
    dqLoop dq perm (a :: rest) b =
      if b.getD (perm a) 0 = 0 then dqLoop dq perm rest b
      else dqLoop dq perm rest (b.set (perm a) (dq (perm a) (b.getD (perm a) 0))) := rfl

theorem dqLoopSum_nil (dq : Nat → Int → Int) (perm : Nat → Nat)
    (p : List Int × Int) : dqLoopSum dq perm [] p = p := rfl

theorem dqLoopSum_cons (dq : Nat → Int → Int) (perm : Nat → Nat) (a : Nat)
    (rest : List Nat) (p : List Int × Int) :
    dqLoopSum dq perm (a :: rest) p =
      if p.1.getD (perm a) 0 = 0 then dqLoopSum dq perm rest p
      else dqLoopSum dq perm rest
        (p.1.set (perm a) (dq (perm a) (p.1.getD (perm a) 0)),
         p.2 + dq (perm a) (p.1.getD (perm a) 0)) := rfl

theorem getD_set_of_ne (l : List Int) (i j : Nat) (a d : Int) (h : i ≠ j) :
    (l.set i a).getD j d = l.getD j d := by
  simp [List.getD_eq_getElem?_getD, List.getElem?_set_ne h]

theorem getD_set_same (l : List Int) (i : Nat) (a d : Int) (h : i < l.length) :
    (l.set i a).getD i d = a := by
  simp [List.getD_eq_getElem?_getD, List.getElem?_set_self, h]

/-- Positions whose permuted index never occurs in the remaining scan
indices are untouched by the dequantizer loop. -/
theorem dqLoop_getD_not_mem (dq : Nat → Int → Int) (perm : Nat → Nat)
    (is : List Nat) (b : List Int) (j : Nat) (h : ∀ i ∈ is, perm i ≠ j) :
    (dqLoop dq perm is b).getD j 0 = b.getD j 0 := by
  induction is generalizing b with
  | nil => rfl
  | cons a rest ih =>
    have ha : perm a ≠ j := h a (List.mem_cons_self a rest)
    have hrest : ∀ i ∈ rest, perm i ≠ j := fun i hi => h i (List.mem_cons_of_mem a hi)
    by_cases hz : b.getD (perm a) 0 = 0
    · rw [dqLoop_cons, if_pos hz, ih _ hrest]
    · rw [dqLoop_cons, if_neg hz, ih _ hrest, getD_set_of_ne _ _ _ _ _ ha]

theorem dqLoop_length (dq : Nat → Int → Int) (perm : Nat → Nat)
    (is : List Nat) (b : List Int) :
    (dqLoop dq perm is b).length = b.length := by
  induction is generalizing b with
  | nil => rfl
  | cons a rest ih =>
    by_cases hz : b.getD (perm a) 0 = 0
    · rw [dqLoop_cons, if_pos hz, ih]
    · rw [dqLoop_cons, if_neg hz, ih, List.length_set]

/-- Per-position characterization of the dequantizer loop: when the
permuted scan positions are pairwise distinct, the final coefficient at
position `perm i` (for `i` among the scan indices) is the kernel applied
to the original coefficient there, with zero coefficients unchanged. -/
theorem dqLoop_getD_mem (dq : Nat → Int → Int) (perm : Nat → Nat)
    (is : List Nat) (b : List Int) (i : Nat)
    (hnd : (is.map perm).Pairwise (· ≠ ·)) (hmem : i ∈ is)
    (hlen : perm i < b.length) :
    (dqLoop dq perm is b).getD (perm i) 0 =
      (if b.getD (perm i) 0 = 0 then 0 else dq (perm i) (b.getD (perm i) 0)) := by
  induction is generalizing b with
  | nil => exact absurd hmem (List.not_mem_nil i)
  | cons a rest ih =>
    rw [List.map_cons, List.pairwise_cons] at hnd
    obtain ⟨hhead, htail⟩ := hnd
    rcases List.mem_cons.mp hmem with rfl | hmem'
    · -- the head index writes (or skips) position perm i, the tail never revisits it
      have hnot : ∀ k ∈ rest, perm k ≠ perm i := by
        intro k hk
        exact fun e => (hhead (perm k) (List.mem_map_of_mem perm hk)) e.symm
      by_cases hz : b.getD (perm i) 0 = 0
      · rw [dqLoop_cons, if_pos hz, if_pos hz, dqLoop_getD_not_mem _ _ _ _ _ hnot, hz]
      · rw [dqLoop_cons, if_neg hz, if_neg hz, dqLoop_getD_not_mem _ _ _ _ _ hnot,
          getD_set_same _ _ _ _ hlen]
    · -- the head step does not alter position perm i; induct on the tail
      have hne : perm a ≠ perm i :=
        hhead (perm i) (List.mem_map_of_mem perm hmem')
      by_cases hz : b.getD (perm a) 0 = 0
      · rw [dqLoop_cons, if_pos hz]
        exact ih _ htail hmem' hlen
      · rw [dqLoop_cons, if_neg hz,
          ih _ htail hmem' (by simpa using hlen),
          getD_set_of_ne _ _ _ _ _ hne]

/-- The block component of the sum-threading loop coincides with the plain
dequantizer loop. -/
theorem dqLoopSum_fst (dq : Nat → Int → Int) (perm : Nat → Nat)
    (is : List Nat) (b : List Int) (sum : Int) :
    (dqLoopSum dq perm is (b, sum)).1 = dqLoop dq perm is b := by
  induction is generalizing b sum with
  | nil => rfl
  | cons a rest ih =>
    by_cases hz : b.getD (perm a) 0 = 0
    · rw [dqLoopSum_cons, dqLoop_cons]
      simp only [if_pos hz, ih]
    · rw [dqLoopSum_cons, dqLoop_cons]
      simp only [if_neg hz, ih]

/-- The dequantized level contributed by scan index `i`: zero for a zero
input coefficient (the loop skips it), else the kernel value. -/
def dequantLevels (dq : Nat → Int → Int) (perm : Nat → Nat) (is : List Nat)
    (b : List Int) : List Int :=
  is.map (fun i => if b.getD (perm i) 0 = 0 then 0 else dq (perm i) (b.getD (perm i) 0))

/-- The sum threaded through the bit-exact loop is the initial value plus
the sum of the (nonzero) dequantized levels, provided the permuted scan
positions are pairwise distinct, so that every level is computed from the
original coefficient. -/
theorem dqLoopSum_snd (dq : Nat → Int → Int) (perm : Nat → Nat)
    (is : List Nat) (b : List Int) (sum : Int)
    (hnd : (is.map perm).Pairwise (· ≠ ·)) :
    (dqLoopSum dq perm is (b, sum)).2 = sum + (dequantLevels dq perm is b).sum := by
  induction is generalizing b sum with
  | nil => simp [dqLoopSum, dequantLevels]
  | cons a rest ih =>
    rw [List.map_cons, List.pairwise_cons] at hnd
    obtain ⟨hhead, htail⟩ := hnd
    by_cases hz : b.getD (perm a) 0 = 0
    · rw [dqLoopSum_cons, if_pos hz, ih _ _ htail]
      simp only [dequantLevels, List.map_cons, List.sum_cons, if_pos hz, zero_add]
    · rw [dqLoopSum_cons, if_neg hz, ih _ _ htail]
      have hmap : dequantLevels dq perm rest (b.set (perm a) (dq (perm a) (b.getD (perm a) 0)))
          = dequantLevels dq perm rest b := by
        apply List.map_congr_left
        intro k hk
        have : perm a ≠ perm k := hhead (perm k) (List.mem_map_of_mem perm hk)
        rw [getD_set_of_ne _ _ _ _ _ this]
      rw [hmap]
      simp only [dequantLevels, List.map_cons, List.sum_cons, if_neg hz]
      ring

/-! Claim C2: zero input blocks. -/

/-- A concrete dequantizer context: identity scan permutation, flat
matrices, last coefficient index 0. -/
def deqCtx0 : DeqCtx where
  block_last_index := fun _ => 0
  alternate_scan := false
  y_dc_scale := 8
  c_dc_scale := 8
  intra_matrix := fun _ => 16
  inter_matrix := fun _ => 16
  intra_perm := fun i => i
  inter_raster_end := fun i => i
  h263_aic := false
  ac_pred := false

/-- C2 (counterexample): the claim "an input block whose 64 coefficients
are all zero is left with all 64 output coefficients zero" fails for the
bit-exact legacy intra dequantizer: on the all-zero block (qscale 2, block
index 0, last index 0) the mismatch-control XOR sets coefficient 63 to 1,
because the level sum is initialized to -1. -/
theorem c2_counterexample :
    (dct_unquantize_mpeg2_intra_bitexact deqCtx0 zeroBlock 0 2).getD 63 0 = 1 ∧
      (1 : Int) ≠ 0 := by
  constructor
  · rfl
  · decide

/-- C2 (amended): an all-zero input block is left all-zero by the simple
(mpeg1) intra and inter dequantizers, the non-bit-exact legacy (mpeg2)
intra dequantizer, and both block-based (h263) dequantizers, for every
context, qscale and block index; the bit-exact legacy intra variant and
the legacy inter variant instead leave every coefficient zero except scan
position 63, which is set to 1 by the mismatch-control XOR (the level sum
starts at -1, so an all-zero block injects the bit 1). -/
theorem c2_zero_block_dequant (s : DeqCtx) (n : Nat) (qscale : Int) :
    dct_unquantize_mpeg1_intra_c s zeroBlock n qscale = zeroBlock ∧
    dct_unquantize_mpeg1_inter_c s zeroBlock n qscale = zeroBlock ∧
    dct_unquantize_mpeg2_intra_c s zeroBlock n qscale = zeroBlock ∧
    dct_unquantize_h263_intra_c s zeroBlock n qscale = zeroBlock ∧
    dct_unquantize_h263_inter_c s zeroBlock n qscale = zeroBlock ∧
    dct_unquantize_mpeg2_intra_bitexact s zeroBlock n qscale = zeroBlock.set 63 1 ∧
    dct_unquantize_mpeg2_inter_c s zeroBlock n qscale = zeroBlock.set 63 1 := by
  have hdc : ∀ v : Int, (zeroBlock.getD 0 0) * v = 0 := by
    intro v
    rw [show zeroBlock = List.replicate 64 (0 : Int) from rfl, getD_replicate_zero]
    exact zero_mul v
  have hset : ∀ v : Int, (zeroBlock.getD 0 0) * v = 0 →
      zeroBlock.set 0 ((zeroBlock.getD 0 0) * v) = zeroBlock := by
    intro v hv
    rw [hv, show zeroBlock = List.replicate 64 (0 : Int) from rfl]
    exact set_zero_replicate 64 0
  have hbit : cXorBit ((List.replicate 64 (0 : Int)).getD 63 0) (cLowBit (-1)) = 1 := by
    rw [getD_replicate_zero]; decide
  refine ⟨?_, ?_, ?_, ?_, ?_, ?_, ?_⟩
  · rw [dct_unquantize_mpeg1_intra_c, hset _ (hdc _)]
    exact dqLoop_zeroBlock _ _ _ _
  · exact dqLoop_zeroBlock _ _ _ _
  · rw [dct_unquantize_mpeg2_intra_c, hset _ (hdc _)]
    exact dqLoop_zeroBlock _ _ _ _
  · rw [dct_unquantize_h263_intra_c]
    by_cases haic : s.h263_aic
    · simp only [haic, if_pos]
      exact dqLoop_zeroBlock _ _ _ _
    · simp only [haic, if_neg, Bool.false_eq_true]
      rw [hset _ (hdc _)]
      exact dqLoop_zeroBlock _ _ _ _
  · exact dqLoop_zeroBlock _ _ _ _
  · rw [dct_unquantize_mpeg2_intra_bitexact, hset _ (hdc _)]
    rw [show zeroBlock = List.replicate 64 (0 : Int) from rfl]
    rw [dqLoopSum_zeroBlock, hbit]
  · rw [dct_unquantize_mpeg2_inter_c]
    rw [show zeroBlock = List.replicate 64 (0 : Int) from rfl]
    rw [dqLoopSum_zeroBlock, hbit]

/-! Claim C1: the bit-exact mismatch correction. -/

/-- The loop of `dct_unquantize_mpeg2_inter_c` without the final
`block[63] ^= sum & 1`: the claim's "pre-correction dequantized value". -/
def dct_unquantize_mpeg2_inter_nocorrect (s : DeqCtx) (block : List Int)
    (n : Nat) (qscale : Int) : List Int :=
  let nCoeffs := if s.alternate_scan then 63 else s.block_last_index n
  dqLoop (fun j level => mpeg2InterLevel qscale (s.inter_matrix j) level)
    s.intra_perm (List.range' 0 (nCoeffs + 1)) block

/-- The sum of the dequantized AC levels of the bit-exact intra variant
(zero coefficients contribute zero), computed over the block after DC
scaling, exactly as the C loop reads it. -/
def intraBitexactLevelSum (s : DeqCtx) (block : List Int) (n : Nat)
    (qscale : Int) : Int :=
  let nCoeffs := if s.alternate_scan then 63 else s.block_last_index n
  let b := block.set 0
    (block.getD 0 0 * (if n < 4 then s.y_dc_scale else s.c_dc_scale))
  (dequantLevels (fun j level => mpeg2IntraLevel qscale (s.intra_matrix j) level)
    s.intra_perm (List.range' 1 nCoeffs) b).sum

/-- The sum of the dequantized levels of `dct_unquantize_mpeg2_inter_c`
(zero coefficients contribute zero). -/
def interLevelSum (s : DeqCtx) (block : List Int) (n : Nat)
    (qscale : Int) : Int :=
  let nCoeffs := if s.alternate_scan then 63 else s.block_last_index n
  (dequantLevels (fun j level => mpeg2InterLevel qscale (s.inter_matrix j) level)
    s.intra_perm (List.range' 0 (nCoeffs + 1)) block).sum

/-- A context like `deqCtx0` but with last coefficient index 1. -/
def deqCtx1 : DeqCtx :=
  { deqCtx0 with block_last_index := fun _ => 1 }

/-- A block whose only nonzero coefficient is a 1 at position 1. -/
def oneACBlock : List Int := zeroBlock.set 1 1

/-- C1 (counterexample): the claim says the final coefficient at scan
position 63 equals its pre-correction value XORed with the parity of the
sum of the nonzero dequantized levels.  With last index 1, identity scan,
flat matrix 16 and qscale 2, the single level dequantizes to 4, so the
claimed injected bit is `4 & 1 = 0` and the claimed final value is 0 —
but the code initializes the sum to -1 and injects `3 & 1 = 1`. -/
theorem c1_counterexample :
    (dct_unquantize_mpeg2_intra_bitexact deqCtx1 oneACBlock 0 2).getD 63 0 = 1 ∧
    cXorBit ((dct_unquantize_mpeg2_intra_c deqCtx1 oneACBlock 0 2).getD 63 0)
      (cLowBit (intraBitexactLevelSum deqCtx1 oneACBlock 0 2)) = 0 ∧
    (1 : Int) ≠ 0 := by
  refine ⟨rfl, rfl, by decide⟩

/-- C1 (amended): for both bit-exact legacy dequantizers the final value
at scan position 63 equals its pre-correction dequantized value XORed with
the low bit of (sum of the nonzero dequantized levels MINUS ONE) — the sum
accumulator starts at -1, so the injected bit is the complement of the
parity of the level sum, not the parity itself.  Stated whenever the
permuted scan positions are pairwise distinct (true of the real scan
tables), so each level is computed from the original coefficient. -/
theorem c1_bitexact_mismatch (s : DeqCtx) (block : List Int) (n : Nat)
    (qscale : Int)
    (hintra : ((List.range' 1 (if s.alternate_scan then 63
        else s.block_last_index n)).map s.intra_perm).Pairwise (· ≠ ·))
    (hinter : ((List.range' 0 ((if s.alternate_scan then 63
        else s.block_last_index n) + 1)).map s.intra_perm).Pairwise (· ≠ ·)) :
    dct_unquantize_mpeg2_intra_bitexact s block n qscale =
      (dct_unquantize_mpeg2_intra_c s block n qscale).set 63
        (cXorBit ((dct_unquantize_mpeg2_intra_c s block n qscale).getD 63 0)
          (cLowBit (intraBitexactLevelSum s block n qscale - 1))) ∧
    dct_unquantize_mpeg2_inter_c s block n qscale =
      (dct_unquantize_mpeg2_inter_nocorrect s block n qscale).set 63
        (cXorBit ((dct_unquantize_mpeg2_inter_nocorrect s block n qscale).getD 63 0)
          (cLowBit (interLevelSum s block n qscale - 1))) := by
  constructor
  · simp only [dct_unquantize_mpeg2_intra_bitexact, dct_unquantize_mpeg2_intra_c,
      intraBitexactLevelSum]
    rw [dqLoopSum_fst, dqLoopSum_snd _ _ _ _ _ hintra]
    have h : (-1 : Int) + (dequantLevels
        (fun j level => mpeg2IntraLevel qscale (s.intra_matrix j) level)
        s.intra_perm
        (List.range' 1 (if s.alternate_scan then 63 else s.block_last_index n))
        (block.set 0 (block.getD 0 0 *
          (if n < 4 then s.y_dc_scale else s.c_dc_scale)))).sum =
        (dequantLevels
        (fun j level => mpeg2IntraLevel qscale (s.intra_matrix j) level)
        s.intra_perm
        (List.range' 1 (if s.alternate_scan then 63 else s.block_last_index n))
        (block.set 0 (block.getD 0 0 *
          (if n < 4 then s.y_dc_scale else s.c_dc_scale)))).sum - 1 := by ring
    rw [h]
  · simp only [dct_unquantize_mpeg2_inter_c, dct_unquantize_mpeg2_inter_nocorrect,
      interLevelSum]
    rw [dqLoopSum_fst, dqLoopSum_snd _ _ _ _ _ hinter]
    have h : (-1 : Int) + (dequantLevels
        (fun j level => mpeg2InterLevel qscale (s.inter_matrix j) level)
        s.intra_perm
        (List.range' 0 ((if s.alternate_scan then 63 else s.block_last_index n) + 1))
        block).sum =
        (dequantLevels
        (fun j level => mpeg2InterLevel qscale (s.inter_matrix j) level)
        s.intra_perm
        (List.range' 0 ((if s.alternate_scan then 63 else s.block_last_index n) + 1))
        block).sum - 1 := by ring
    rw [h]

/-- C1 witness: the amended mismatch characterization instantiated on a
concrete context and block. -/
theorem c1_bitexact_mismatch_witness :
    (((List.range' 1 (if deqCtx1.alternate_scan then 63
        else deqCtx1.block_last_index 0)).map deqCtx1.intra_perm).Pairwise (· ≠ ·)) ∧
    (((List.range' 0 ((if deqCtx1.alternate_scan then 63
        else deqCtx1.block_last_index 0) + 1)).map deqCtx1.intra_perm).Pairwise (· ≠ ·)) ∧
    (dct_unquantize_mpeg2_intra_bitexact deqCtx1 oneACBlock 0 2 =
      (dct_unquantize_mpeg2_intra_c deqCtx1 oneACBlock 0 2).set 63
        (cXorBit ((dct_unquantize_mpeg2_intra_c deqCtx1 oneACBlock 0 2).getD 63 0)
          (cLowBit (intraBitexactLevelSum deqCtx1 oneACBlock 0 2 - 1))) ∧
    dct_unquantize_mpeg2_inter_c deqCtx1 oneACBlock 0 2 =
      (dct_unquantize_mpeg2_inter_nocorrect deqCtx1 oneACBlock 0 2).set 63
        (cXorBit ((dct_unquantize_mpeg2_inter_nocorrect deqCtx1 oneACBlock 0 2).getD 63 0)
          (cLowBit (interLevelSum deqCtx1 oneACBlock 0 2 - 1)))) :=
  ⟨by decide, by decide, c1_bitexact_mismatch deqCtx1 oneACBlock 0 2 (by decide) (by decide)⟩

/-! Claim C7: the simple-intra dequantizer formula. -/

/-- The claim's formula for a simple-intra AC coefficient:
`sign(coeff) * ((((|coeff| * qscale * matrix[j]) >> 3) - 1) | 1)`, with
zero coefficients unchanged. -/
def mpeg1IntraClaimFormula (qscale : Int) (m : Nat) (coeff : Int) : Int :=
  if coeff = 0 then coeff
  else coeff.sign * cOrOne (((coeff.natAbs : Int) * qscale * (m : Int)) / 8 - 1)

/-- The source's nonzero-level kernel agrees with the claim's
sign-magnitude formula (an arithmetic right shift by 3 is floor division
by 8, which coincides with Lean's Euclidean division for divisor 8). -/
theorem mpeg1IntraLevel_eq_claimFormula (qscale : Int) (m : Nat) (coeff : Int)
    (hc : coeff ≠ 0) :
    mpeg1IntraLevel qscale m coeff = mpeg1IntraClaimFormula qscale m coeff := by
  rcases lt_trichotomy coeff 0 with hneg | hz | hpos
  · rw [mpeg1IntraLevel, if_pos hneg, mpeg1IntraClaimFormula, if_neg hc,
      Int.sign_eq_neg_one_of_neg hneg,
      show ((coeff.natAbs : Int)) = -coeff from by
        omega,
      sar3, Int.fdiv_eq_ediv _ (by norm_num), neg_one_mul]
  · exact absurd hz hc
  · rw [mpeg1IntraLevel, if_neg (not_lt.mpr (le_of_lt hpos)),
      mpeg1IntraClaimFormula, if_neg hc, Int.sign_eq_one_of_pos hpos,
      show ((coeff.natAbs : Int)) = coeff from by
        omega,
      sar3, Int.fdiv_eq_ediv _ (by norm_num), one_mul]

/-- C7 (confirmed): for `dct_unquantize_mpeg1_intra_c`, the DC coefficient
is multiplied by the luma DC scale for block indices below 4 and by the
chroma DC scale otherwise, and each coefficient read at scan-permuted
position `perm i` (scan index `1 ≤ i ≤ block_last_index`) becomes
`sign(coeff) * ((((|coeff| * qscale * matrix[perm i]) >> 3) - 1) | 1)`
when nonzero and stays 0 when zero.  Hypotheses: the block has its 64
coefficients, and the permuted scan positions are pairwise distinct,
in range, and avoid the DC position (true of the real scan tables). -/
theorem c7_mpeg1_intra_formula (s : DeqCtx) (block : List Int) (n : Nat)
    (qscale : Int) (hlen : block.length = 64)
    (hnd : ((List.range' 1 (s.block_last_index n)).map s.intra_perm).Pairwise (· ≠ ·))
    (hz : ∀ i ∈ List.range' 1 (s.block_last_index n), s.intra_perm i ≠ 0) :
    (dct_unquantize_mpeg1_intra_c s block n qscale).getD 0 0 =
      block.getD 0 0 * (if n < 4 then s.y_dc_scale else s.c_dc_scale) ∧
    ∀ i ∈ List.range' 1 (s.block_last_index n), s.intra_perm i < 64 →
      (dct_unquantize_mpeg1_intra_c s block n qscale).getD (s.intra_perm i) 0 =
        mpeg1IntraClaimFormula qscale (s.intra_matrix (s.intra_perm i))
          (block.getD (s.intra_perm i) 0) := by
  constructor
  · rw [dct_unquantize_mpeg1_intra_c, dqLoop_getD_not_mem _ _ _ _ _ hz,
      getD_set_same _ _ _ _ (by rw [hlen]; norm_num)]
  · intro i hi hilt
    rw [dct_unquantize_mpeg1_intra_c,
      dqLoop_getD_mem _ _ _ _ _ hnd hi (by rw [List.length_set, hlen]; exact hilt),
      getD_set_of_ne _ _ _ _ _ (fun e => hz i hi e.symm)]
    by_cases hc : block.getD (s.intra_perm i) 0 = 0
    · rw [if_pos hc, mpeg1IntraClaimFormula, if_pos hc, hc]
    · rw [if_neg hc, mpeg1IntraLevel_eq_claimFormula _ _ _ hc]

/-- C7 witness: the simple-intra formula instantiated on a concrete
context and block. -/
theorem c7_mpeg1_intra_formula_witness :
    oneACBlock.length = 64 ∧
    (((List.range' 1 (deqCtx1.block_last_index 0)).map deqCtx1.intra_perm).Pairwise (· ≠ ·)) ∧
    (∀ i ∈ List.range' 1 (deqCtx1.block_last_index 0), deqCtx1.intra_perm i ≠ 0) ∧
    ((dct_unquantize_mpeg1_intra_c deqCtx1 oneACBlock 0 2).getD 0 0 =
      oneACBlock.getD 0 0 * (if 0 < 4 then deqCtx1.y_dc_scale else deqCtx1.c_dc_scale) ∧
    ∀ i ∈ List.range' 1 (deqCtx1.block_last_index 0), deqCtx1.intra_perm i < 64 →
      (dct_unquantize_mpeg1_intra_c deqCtx1 oneACBlock 0 2).getD (deqCtx1.intra_perm i) 0 =
        mpeg1IntraClaimFormula 2 (deqCtx1.intra_matrix (deqCtx1.intra_perm i))
          (oneACBlock.getD (deqCtx1.intra_perm i) 0)) :=
  ⟨by decide, by decide, by decide,
    c7_mpeg1_intra_formula deqCtx1 oneACBlock 0 2 (by decide) (by decide) (by decide)⟩

/-! Claim C3: the slice row-range partition of `ff_mpv_common_init` and
`ff_mpv_common_frame_size_change`. -/

/-- `thread_context[i]->start_mb_y = (s->mb_height * i + nb_slices / 2) / nb_slices`. -/
def sliceStartRow (H N i : Nat) : Nat := (H * i + N / 2) / N

/-- `thread_context[i]->end_mb_y = (s->mb_height * (i + 1) + nb_slices / 2) / nb_slices`. -/
def sliceEndRow (H N i : Nat) : Nat := (H * (i + 1) + N / 2) / N

theorem sliceEndRow_mono (H N : Nat) (i j : Nat) (h : i ≤ j) :
    sliceEndRow H N i ≤ sliceEndRow H N j :=
  Nat.div_le_div_right (Nat.add_le_add_right
    (Nat.mul_le_mul_left H (Nat.add_le_add_right h 1)) _)

theorem sliceEndRow_last (H N : Nat) (hN : 1 ≤ N) :
    sliceEndRow H N (N - 1) = H := by
  rw [sliceEndRow, Nat.sub_add_cancel hN, Nat.mul_comm,
    Nat.mul_add_div (Nat.lt_of_lt_of_le Nat.zero_lt_one hN),
    Nat.div_eq_of_lt (Nat.div_lt_self (Nat.lt_of_lt_of_le Nat.zero_lt_one hN) Nat.one_lt_two),
    Nat.add_zero]

theorem sliceStartRow_zero (H N : Nat) (hN : 1 ≤ N) :
    sliceStartRow H N 0 = 0 := by
  rw [sliceStartRow, Nat.mul_zero, Nat.zero_add,
    Nat.div_eq_of_lt (Nat.div_lt_self (Nat.lt_of_lt_of_le Nat.zero_lt_one hN) Nat.one_lt_two)]

/-- C3 (confirmed): for `1 ≤ N ≤ H` slices over `H` macroblock rows, the
assigned ranges `[sliceStartRow i, sliceEndRow i)` are contiguous (each
slice's end is the next slice's start), non-overlapping, each non-empty,
and their union is exactly the interval `[0, H)`. -/
theorem c3_slice_row_partition (H N : Nat) (hN : 1 ≤ N) (hNH : N ≤ H) :
    (∀ i, i + 1 < N → sliceEndRow H N i = sliceStartRow H N (i + 1)) ∧
    (∀ i j, i < j → j < N → sliceEndRow H N i ≤ sliceStartRow H N j) ∧
    (∀ i, i < N → sliceStartRow H N i < sliceEndRow H N i) ∧
    (∀ r, r < H ↔ ∃ i, i < N ∧ sliceStartRow H N i ≤ r ∧ r < sliceEndRow H N i) := by
  have hN0 : 0 < N := hN
  have hcontig : ∀ i : Nat, sliceEndRow H N i = sliceStartRow H N (i + 1) :=
    fun i => rfl
  have hnonempty : ∀ i, sliceStartRow H N i < sliceEndRow H N i := by
    intro i
    have hle : H * i + N / 2 + N ≤ H * (i + 1) + N / 2 := by
      have : H * i + H = H * (i + 1) := by ring
      omega
    calc sliceStartRow H N i < (H * i + N / 2 + N) / N := by
          rw [Nat.add_div_right _ hN0]; exact Nat.lt_succ_self _
      _ ≤ sliceEndRow H N i := Nat.div_le_div_right hle
  refine ⟨fun i _ => hcontig i, ?_, fun i _ => hnonempty i, ?_⟩
  · intro i j hij hjN
    calc sliceEndRow H N i ≤ sliceEndRow H N (j - 1) :=
          sliceEndRow_mono H N i (j - 1) (by omega)
      _ = sliceStartRow H N j := by rw [hcontig (j - 1), Nat.sub_add_cancel (by omega)]
  · intro r
    constructor
    · intro hr
      have hex : ∃ i, r < sliceEndRow H N i :=
        ⟨N - 1, by rw [sliceEndRow_last H N hN]; exact hr⟩
      classical
      let k := Nat.find hex
      have hk : r < sliceEndRow H N k := Nat.find_spec hex
      have hkN : k < N := by
        have : k ≤ N - 1 := Nat.find_le (by rw [sliceEndRow_last H N hN]; exact hr)
        omega
      refine ⟨k, hkN, ?_, hk⟩
      rcases Nat.eq_zero_or_pos k with hk0 | hkpos
      · rw [hk0, sliceStartRow_zero H N hN]; exact Nat.zero_le r
      · have hprev : ¬ r < sliceEndRow H N (k - 1) :=
          Nat.find_min hex (by omega)
        rw [← Nat.sub_add_cancel hkpos, ← hcontig (k - 1)]
        omega
    · rintro ⟨i, hiN, _, hend⟩
      calc r < sliceEndRow H N i := hend
        _ ≤ sliceEndRow H N (N - 1) := sliceEndRow_mono H N i (N - 1) (by omega)
        _ = H := sliceEndRow_last H N hN

/-- C3 witness: the partition property at H = 5 rows, N = 3 slices. -/
theorem c3_slice_row_partition_witness :
    (1 ≤ 3 ∧ 3 ≤ 5) ∧
    ((∀ i, i + 1 < 3 → sliceEndRow 5 3 i = sliceStartRow 5 3 (i + 1)) ∧
    (∀ i j, i < j → j < 3 → sliceEndRow 5 3 i ≤ sliceStartRow 5 3 j) ∧
    (∀ i, i < 3 → sliceStartRow 5 3 i < sliceEndRow 5 3 i) ∧
    (∀ r, r < 5 ↔ ∃ i, i < 3 ∧ sliceStartRow 5 3 i ≤ r ∧ r < sliceEndRow 5 3 i)) :=
  ⟨⟨by decide, by decide⟩, c3_slice_row_partition 5 3 (by decide) (by decide)⟩

/-! Claim C5: the unused-picture pool scan. -/

/-- `DELAYED_PIC_REF` from mpegutils.h (header not in the sources): the
reference-flag bit marking a delayed reference picture. -/
def DELAYED_PIC_REF : Nat := 4

/-- The slot state of one entry of the `s->picture` array that
`pic_is_unused` / `find_unused_picture` read: whether `f->buf[0]` is set,
the `needs_realloc` flag, and the `reference` flag word. -/
structure PoolPic where
  buf0 : Bool
  needs_realloc : Bool
  reference : Nat

/-- `pic_is_unused`: a slot is unused when it has no pixel buffer, or is
marked `needs_realloc` and is not a delayed reference. -/
def pic_is_unused (pic : PoolPic) : Bool :=
  if !pic.buf0 then true
  else if pic.needs_realloc && (pic.reference &&& DELAYED_PIC_REF == 0) then true
  else false

/-- The scan loop of `find_unused_picture`: the first index (from 0)
whose slot satisfies the predicate, else the error (`none`, standing for
`AVERROR_INVALIDDATA`). -/
def findFirstSlot (p : PoolPic → Bool) : List PoolPic → Option Nat
  | [] => none
  | pic :: rest =>
      if p pic then some 0 else (findFirstSlot p rest).map (fun k => k + 1)

/-- `find_unused_picture`: with `shared` the predicate is "no pixel
buffer"; otherwise it is `pic_is_unused`. -/
def find_unused_picture (pool : List PoolPic) (shared : Bool) : Option Nat :=
  if shared then findFirstSlot (fun pic => !pic.buf0) pool
  else findFirstSlot pic_is_unused pool

theorem findFirstSlot_some (p : PoolPic → Bool) (pool : List PoolPic) (i : Nat)
    (h : findFirstSlot p pool = some i) :
    i < pool.length ∧ p (pool.getD i ⟨false, false, 0⟩) = true := by
  induction pool generalizing i with
  | nil => exact absurd h (by rw [findFirstSlot]; exact Option.some_ne_none i ∘ Eq.symm)
  | cons pic rest ih =>
    rw [findFirstSlot] at h
    by_cases hp : p pic
    · rw [if_pos hp] at h
      cases h
      exact ⟨Nat.succ_pos _, hp⟩
    · rw [if_neg hp] at h
      cases hrec : findFirstSlot p rest with
      | none => rw [hrec] at h; exact absurd h (by simp)
      | some k =>
        rw [hrec] at h
        simp only [Option.map_some'] at h
        obtain ⟨hk, hpk⟩ := ih k hrec
        cases h
        exact ⟨Nat.succ_lt_succ hk, hpk⟩

theorem findFirstSlot_none (p : PoolPic → Bool) (pool : List PoolPic)
    (h : findFirstSlot p pool = none) :
    ∀ j, j < pool.length → p (pool.getD j ⟨false, false, 0⟩) = false := by
  induction pool with
  | nil => intro j hj; exact absurd hj (Nat.not_lt_zero j)
  | cons pic rest ih =>
    rw [findFirstSlot] at h
    by_cases hp : p pic
    · rw [if_pos hp] at h; exact absurd h (by simp)
    · rw [if_neg hp] at h
      intro j hj
      cases j with
      | zero => simpa using Bool.of_not_eq_true hp
      | succ k =>
        have hrest : findFirstSlot p rest = none := by
          cases hrec : findFirstSlot p rest with
          | none => rfl
          | some m => rw [hrec] at h; exact absurd h (by simp)
        exact ih hrest k (Nat.lt_of_succ_lt_succ hj)

/-- C5 (confirmed): `find_unused_picture` with `shared` returns only
indices of slots with no pixel buffer; without `shared` it returns only
indices of unused slots (no pixel buffer, or needs-realloc and not a
delayed reference); and it returns the no-frame-buffer-available error
exactly when no slot of the pool satisfies the respective predicate. -/
theorem c5_find_unused_picture (pool : List PoolPic) (shared : Bool) :
    (∀ i, find_unused_picture pool shared = some i →
      i < pool.length ∧
      (if shared then (pool.getD i ⟨false, false, 0⟩).buf0 = false
       else pic_is_unused (pool.getD i ⟨false, false, 0⟩) = true)) ∧
    (find_unused_picture pool shared = none ↔
      ∀ j, j < pool.length →
        (if shared then (pool.getD j ⟨false, false, 0⟩).buf0 = false
         else pic_is_unused (pool.getD j ⟨false, false, 0⟩) = true) → False) := by
  cases shared with
  | true =>
    constructor
    · intro i h
      rw [find_unused_picture, if_pos rfl] at h
      obtain ⟨hi, hp⟩ := findFirstSlot_some _ _ _ h
      exact ⟨hi, by simpa using hp⟩
    · constructor
      · intro h j hj hbuf
        rw [find_unused_picture, if_pos rfl] at h
        have := findFirstSlot_none _ _ h j hj
        rw [if_pos rfl] at hbuf
        rw [hbuf] at this
        exact absurd this (by simp)
      · intro hall
        rw [find_unused_picture, if_pos rfl]
        cases hrec : findFirstSlot (fun pic => !pic.buf0) pool with
        | none => rfl
        | some i =>
          obtain ⟨hi, hp⟩ := findFirstSlot_some _ _ _ hrec
          exact absurd (hall i hi (by simpa using hp)) not_false
  | false =>
    constructor
    · intro i h
      rw [find_unused_picture, if_neg (by simp)] at h
      obtain ⟨hi, hp⟩ := findFirstSlot_some _ _ _ h
      exact ⟨hi, by simpa using hp⟩
    · constructor
      · intro h j hj hbuf
        rw [find_unused_picture, if_neg (by simp)] at h
        have := findFirstSlot_none _ _ h j hj
        rw [if_neg (by simp)] at hbuf
        rw [hbuf] at this
        exact absurd this (by simp)
      · intro hall
        rw [find_unused_picture, if_neg (by simp)]
        cases hrec : findFirstSlot pic_is_unused pool with
        | none => rfl
        | some i =>
          obtain ⟨hi, hp⟩ := findFirstSlot_some _ _ _ hrec
          exact absurd (hall i hi (by simpa using hp)) not_false

/-- C5 witness: the pool-scan characterization on a concrete two-slot
pool whose second slot is unused. -/
theorem c5_find_unused_picture_witness :
    (∀ i, find_unused_picture [⟨true, false, 0⟩, ⟨true, true, 0⟩] false = some i →
      i < 2 ∧
      (if false then
        (([⟨true, false, 0⟩, ⟨true, true, 0⟩] : List PoolPic).getD i ⟨false, false, 0⟩).buf0 = false
       else pic_is_unused
        (([⟨true, false, 0⟩, ⟨true, true, 0⟩] : List PoolPic).getD i ⟨false, false, 0⟩) = true)) ∧
    (find_unused_picture [⟨true, false, 0⟩, ⟨true, true, 0⟩] false = none ↔
      ∀ j, j < 2 →
        (if false then
          (([⟨true, false, 0⟩, ⟨true, true, 0⟩] : List PoolPic).getD j ⟨false, false, 0⟩).buf0 = false
         else pic_is_unused
          (([⟨true, false, 0⟩, ⟨true, true, 0⟩] : List PoolPic).getD j ⟨false, false, 0⟩) = true) → False) :=
  c5_find_unused_picture [⟨true, false, 0⟩, ⟨true, true, 0⟩] false

/-! Claim C10: `ff_set_qscale`. -/

/-- The fields of `MpegEncContext` that `ff_set_qscale` reads and writes:
the three lookup tables (uint8 arrays, modelled as `Nat`-valued functions
indexed by the quantizer scale) and the four derived scalar fields. -/
structure QscaleCtx where
  chroma_qscale_table : Nat → Nat
  y_dc_scale_table : Nat → Nat
  c_dc_scale_table : Nat → Nat
  qscale : Int
  chroma_qscale : Nat
  y_dc_scale : Nat
  c_dc_scale : Nat

/-- `ff_set_qscale`: clamp the argument into [1, 31], store it, and derive
`chroma_qscale`, `y_dc_scale` and `c_dc_scale` from the lookup tables. -/
def ff_set_qscale (s : QscaleCtx) (qscale : Int) : QscaleCtx :=
  let q : Int := if qscale < 1 then 1 else if qscale > 31 then 31 else qscale
  { s with
    qscale := q
    chroma_qscale := s.chroma_qscale_table q.toNat
    y_dc_scale := s.y_dc_scale_table q.toNat
    c_dc_scale := s.c_dc_scale_table (s.chroma_qscale_table q.toNat) }

/-- The clamp described by the claim: `q` itself when `1 ≤ q ≤ 31`, 1 when
`q < 1`, 31 when `q > 31`. -/
def clampQscale (q : Int) : Int :=
  if 1 ≤ q ∧ q ≤ 31 then q else if q < 1 then 1 else 31

/-- C10 (confirmed): after `ff_set_qscale s q` the stored quantizer scale
is exactly `q` clamped into [1, 31] (hence always in range), and the
derived fields equal the lookup-table entries at the clamped index:
`chroma_qscale = chroma_qscale_table[clamp q]`,
`y_dc_scale = y_dc_scale_table[clamp q]`, and
`c_dc_scale = c_dc_scale_table[chroma_qscale_table[clamp q]]` (the chroma
DC table is indexed through the chroma qscale, per the source). -/
theorem c10_set_qscale_clamps (s : QscaleCtx) (q : Int) :
    (ff_set_qscale s q).qscale = clampQscale q ∧
    1 ≤ (ff_set_qscale s q).qscale ∧ (ff_set_qscale s q).qscale ≤ 31 ∧
    (ff_set_qscale s q).chroma_qscale = s.chroma_qscale_table (clampQscale q).toNat ∧
    (ff_set_qscale s q).y_dc_scale = s.y_dc_scale_table (clampQscale q).toNat ∧
    (ff_set_qscale s q).c_dc_scale =
      s.c_dc_scale_table (s.chroma_qscale_table (clampQscale q).toNat) := by
  have hclamp : (if q < 1 then (1 : Int) else if q > 31 then 31 else q) = clampQscale q := by
    rw [clampQscale]
    rcases lt_or_le q 1 with h1 | h1
    · rw [if_pos h1, if_neg (by omega), if_pos h1]
    · rcases lt_or_le (31 : Int) q with h31 | h31
      · rw [if_neg (by omega), if_pos h31, if_neg (by omega), if_neg (by omega)]
      · rw [if_neg (by omega), if_neg (by omega), if_pos ⟨h1, h31⟩]
  have hrange : 1 ≤ clampQscale q ∧ clampQscale q ≤ 31 := by
    rw [clampQscale]
    rcases le_or_lt 1 q with h1 | h1 <;> rcases le_or_lt q 31 with h31 | h31 <;>
      simp_all <;> omega
  refine ⟨?_, ?_, ?_, ?_, ?_, ?_⟩ <;>
    simp only [ff_set_qscale, hclamp] <;> try rfl
  · exact hrange.1
  · exact hrange.2

/-! Claim C4: Picture pixel-buffer / table coherence. -/

/-- The allocation state of one `Picture` slot: whether the pixel buffer
(`f->buf[0]`) is held, whether the auxiliary table set (qscale table,
mb-type table, skip flags, motion-vector/ref-index buffers) is held, and
the `needs_realloc` flag.  Allocation success or failure of the external
allocators is an oracle `Bool` passed to each operation. -/
structure PicState where
  pixels : Bool
  tables : Bool
  needs_realloc : Bool
deriving DecidableEq

/-- `ff_free_picture_tables`: unref every table buffer. -/
def ff_free_picture_tables (p : PicState) : PicState :=
  { p with tables := false }

/-- `ff_mpeg_unref_picture`: release the frame buffer, free the tables
only when `needs_realloc` is set, then zero the trailing scalar fields
(which include `needs_realloc` but not the table buffer pointers). -/
def ff_mpeg_unref_picture (p : PicState) : PicState :=
  let p1 := { p with pixels := false }
  let p2 := if p.needs_realloc then ff_free_picture_tables p1 else p1
  { p2 with needs_realloc := false }

/-- `ff_alloc_picture`: with `shared` the pixels are already present and
only the tables are allocated or made writable; otherwise the frame
buffer is allocated first (early `return -1` on failure, with no cleanup
of the slot), then tables are allocated or made writable, and on table
failure the `fail:` path unrefs the picture and frees the tables.
`okFrame` / `okTables` are the external allocators' outcomes; the `Bool`
result is success. -/
def ff_alloc_picture (shared okFrame okTables : Bool) (p : PicState) :
    PicState × Bool :=
  if shared then
    if okTables then ({ p with tables := true }, true)
    else (ff_free_picture_tables (ff_mpeg_unref_picture p), false)
  else
    if !okFrame then (p, false)
    else
      let p1 := { p with pixels := true }
      if okTables then ({ p1 with tables := true }, true)
      else (ff_free_picture_tables (ff_mpeg_unref_picture p1), false)

/-- `ff_mpeg_ref_picture dst src`: reference the frame (failure unrefs
`dst`), copy table references from `src` (failure frees `dst`'s tables
and unrefs), then copy the scalar fields including `needs_realloc`. -/
def ff_mpeg_ref_picture (okRef okTables : Bool) (dst src : PicState) :
    PicState × Bool :=
  if !okRef then (ff_mpeg_unref_picture dst, false)
  else
    let d1 := { dst with pixels := true }
    if !okTables then (ff_mpeg_unref_picture (ff_free_picture_tables d1), false)
    else ({ d1 with tables := src.tables, needs_realloc := src.needs_realloc }, true)

/-- One lifecycle operation applied to a slot, with its oracle outcomes
(and, for `ref`, the source picture). -/
inductive PicOp where
  | unref : PicOp
  | alloc (shared okFrame okTables : Bool) : PicOp
  | ref (okRef okTables : Bool) (src : PicState) : PicOp

def applyPicOp (p : PicState) : PicOp → PicState
  | .unref => ff_mpeg_unref_picture p
  | .alloc shared okFrame okTables => (ff_alloc_picture shared okFrame okTables p).1
  | .ref okRef okTables src => (ff_mpeg_ref_picture okRef okTables p src).1

def applyPicOps (p : PicState) : List PicOp → PicState
  | [] => p
  | op :: rest => applyPicOps (applyPicOp p op) rest

/-- The claim's coherence predicate: pixel buffer and table set both
present or both absent. -/
def coherent (p : PicState) : Prop :=
  (p.pixels = true ∧ p.tables = true) ∨ (p.pixels = false ∧ p.tables = false)

instance : DecidablePred coherent := fun p => by
  rw [coherent]; infer_instance

/-- C4 (counterexample): the claim says every sequence of alloc / ref /
unref calls leaves each slot with pixels and tables either both present
or both absent; but a successful `ff_alloc_picture` followed by
`ff_mpeg_unref_picture` (with `needs_realloc` clear) releases the pixel
buffer while keeping the table buffers for copy-on-write reuse, leaving
pixels absent and tables present. -/
theorem c4_counterexample :
    ¬ coherent (applyPicOps ⟨false, false, false⟩
      [PicOp.alloc false true true, PicOp.unref]) := by
  decide

/-- The invariant that actually holds: a slot holding its pixel buffer
always holds its full table set (tables may outlive the pixels, for
copy-on-write reuse, but never the other way round). -/
def pixImpliesTables (p : PicState) : Prop := p.pixels = true → p.tables = true

instance : DecidablePred pixImpliesTables := fun p => by
  rw [pixImpliesTables]; infer_instance

theorem unref_pixels_false (p : PicState) :
    (ff_mpeg_unref_picture p).pixels = false := by
  rw [ff_mpeg_unref_picture]
  by_cases hnr : p.needs_realloc = true
  · simp [hnr, ff_free_picture_tables]
  · simp [hnr]

theorem alloc_pix_implies_tables (shared okFrame okTables : Bool) (p : PicState)
    (hp : pixImpliesTables p) :
    pixImpliesTables (ff_alloc_picture shared okFrame okTables p).1 := by
  intro hpix
  cases shared with
  | true =>
    cases okTables with
    | true => rfl
    | false =>
      have hfix : (ff_alloc_picture true okFrame false p).1 =
          ff_free_picture_tables (ff_mpeg_unref_picture p) := by
        rw [ff_alloc_picture]; simp
      rw [hfix] at hpix
      rw [show (ff_free_picture_tables (ff_mpeg_unref_picture p)).pixels =
          (ff_mpeg_unref_picture p).pixels from rfl, unref_pixels_false] at hpix
      exact absurd hpix (by simp)
  | false =>
    cases okFrame with
    | false => exact hp hpix
    | true =>
      cases okTables with
      | true => rfl
      | false =>
        rw [show (ff_alloc_picture false true false p).1 =
            ff_free_picture_tables
              (ff_mpeg_unref_picture { p with pixels := true }) from by
          rw [ff_alloc_picture]; simp] at hpix
        rw [show (ff_free_picture_tables
            (ff_mpeg_unref_picture { p with pixels := true })).pixels =
            (ff_mpeg_unref_picture { p with pixels := true }).pixels from rfl,
          unref_pixels_false] at hpix
        exact absurd hpix (by simp)

theorem ref_pix_implies_tables (okRef okTables : Bool) (dst src : PicState)
    (hst : src.tables = true) :
    pixImpliesTables (ff_mpeg_ref_picture okRef okTables dst src).1 := by
  intro hpix
  cases okRef with
  | false =>
    rw [show (ff_mpeg_ref_picture false okTables dst src).1 =
        ff_mpeg_unref_picture dst from by rw [ff_mpeg_ref_picture]; simp] at hpix
    rw [unref_pixels_false] at hpix
    exact absurd hpix (by simp)
  | true =>
    cases okTables with
    | false =>
      rw [show (ff_mpeg_ref_picture true false dst src).1 =
          ff_mpeg_unref_picture
            (ff_free_picture_tables { dst with pixels := true }) from by
        rw [ff_mpeg_ref_picture]; simp] at hpix
      rw [unref_pixels_false] at hpix
      exact absurd hpix (by simp)
    | true =>
      have hfix : (ff_mpeg_ref_picture true true dst src).1 = { dst with pixels := true, tables := src.tables, needs_realloc := src.needs_realloc } := by
        rw [ff_mpeg_ref_picture]; simp
      rw [hfix]
      exact hst

/-- C4 (amended): after any sequence of `ff_alloc_picture`,
`ff_mpeg_ref_picture` and `ff_mpeg_unref_picture` calls on a slot that
starts with `pixels → tables` (e.g. empty), where every `ref` source is
an allocated picture with its tables present (which the source asserts
and the invariant provides), the slot satisfies `pixels → tables`: in
particular a failing `ff_alloc_picture` and `ff_mpeg_unref_picture`
never leave pixels present with tables absent; a slot may retain tables
with pixels absent (copy-on-write reuse), refuting the both-or-neither
form of the claim. -/
theorem c4_pix_implies_tables (p : PicState) (ops : List PicOp)
    (hp : pixImpliesTables p)
    (hsrc : ∀ okRef okTables src, PicOp.ref okRef okTables src ∈ ops →
      src.tables = true) :
    pixImpliesTables (applyPicOps p ops) := by
  induction ops generalizing p with
  | nil => exact hp
  | cons op rest ih =>
    refine ih (applyPicOp p op) ?_ ?_
    · cases op with
      | unref =>
        intro hpix
        rw [applyPicOp, unref_pixels_false] at hpix
        exact absurd hpix (by simp)
      | alloc shared okFrame okTables =>
        exact alloc_pix_implies_tables shared okFrame okTables p hp
      | ref okRef okTables src =>
        exact ref_pix_implies_tables okRef okTables p src
          (hsrc okRef okTables src (List.mem_cons_self _ _))
    · intro a b c hmem
      exact hsrc a b c (List.mem_cons_of_mem _ hmem)

/-- C4 witness: the amended invariant on a concrete operation sequence
(successful alloc, unref, ref from a table-holding source, failing
alloc). -/
theorem c4_pix_implies_tables_witness :
    pixImpliesTables ⟨false, false, false⟩ ∧
    pixImpliesTables (applyPicOps ⟨false, false, false⟩
      [PicOp.alloc false true true, PicOp.unref,
       PicOp.ref true true ⟨true, true, false⟩,
       PicOp.alloc false true false]) :=
  ⟨by decide,
   c4_pix_implies_tables ⟨false, false, false⟩
    [PicOp.alloc false true true, PicOp.unref,
     PicOp.ref true true ⟨true, true, false⟩,
     PicOp.alloc false true false]
    (by decide)
    (by intro a b c h
        simp only [List.mem_cons, List.not_mem_nil, or_false] at h
        rcases h with h | h | h | h
        · exact PicOp.noConfusion h
        · exact PicOp.noConfusion h
        · injection h with h1 h2 h3
          subst h3
          rfl
        · exact PicOp.noConfusion h)⟩

/-! Claim C6: the dummy reference frame substituted at frame start. -/

/-- A frame's three pixel planes (luma and two chroma), modelled as byte
arrays indexed by flat offset. -/
structure FramePlanes where
  data0 : Nat → Nat
  data1 : Nat → Nat
  data2 : Nat → Nat

/-- `memset(buf, v, n)`: constant `v` on the first `n` bytes. -/
def memsetBytes (buf : Nat → Nat) (v n : Nat) : Nat → Nat :=
  fun i => if i < n then v else buf i

/-- The guard of the dummy-last-picture block in `ff_mpv_frame_start`:
no usable last picture, and the frame is not an intra full frame. -/
def needsDummyLast (lastHasBuf isIntra isFullFrame : Bool) : Bool :=
  !lastHasBuf && (!isIntra || !isFullFrame)

/-- The guard of the dummy-next-picture block in `ff_mpv_frame_start`:
no usable next picture and the current frame is a B-frame. -/
def needsDummyNext (nextHasBuf isBFrame : Bool) : Bool :=
  !nextHasBuf && isBFrame

/-- The pixel initialization `ff_mpv_frame_start` applies to the freshly
allocated dummy last picture: `memset(data[0], 0, h * linesize0)` and
`memset(data[k], 0x80, (h >> v_chroma_shift) * linesizek)` for the two
chroma planes `k = 1, 2`. -/
def fillDummyLastPicture (h ls0 ls1 ls2 vshift : Nat)
    (pic : FramePlanes) : FramePlanes :=
  { data0 := memsetBytes pic.data0 0 (h * ls0)
    data1 := memsetBytes pic.data1 0x80 ((h >>> vshift) * ls1)
    data2 := memsetBytes pic.data2 0x80 ((h >>> vshift) * ls2) }

/-- The pixel initialization `ff_mpv_frame_start` applies to the freshly
allocated dummy next picture (the B-frame path): none — only the decode
progress is reported; no memset is executed. -/
def fillDummyNextPicture (pic : FramePlanes) : FramePlanes := pic

/-- The mid-scale neutral value of an 8-bit sample. -/
def midScaleByte : Nat := 0x80

/-- An arbitrary concrete pre-fill plane content (stale bytes 7). -/
def stalePlanes : FramePlanes :=
  { data0 := fun _ => 7, data1 := fun _ => 7, data2 := fun _ => 7 }

/-- C6 (counterexample): the claim says every pixel of the substituted
dummy reference is set to the neutral-gray mid-scale constant in the luma
plane and in both chroma planes; but the code memsets the luma plane of
the dummy last picture to 0 (black), not 0x80, and the dummy next picture
of the B-frame path is not pixel-initialized at all (stale contents
remain). -/
theorem c6_counterexample :
    (fillDummyLastPicture 16 16 8 8 1 stalePlanes).data0 0 = 0 ∧
    (0 : Nat) ≠ midScaleByte ∧
    (fillDummyNextPicture stalePlanes).data0 0 = 7 ∧
    (7 : Nat) ≠ midScaleByte := by
  refine ⟨rfl, by decide, rfl, by decide⟩

/-- C6 (amended): when a reference is missing (`needsDummyLast` for a
non-intra or non-full frame without a last picture, `needsDummyNext` for
a B-frame without a next picture) a dummy picture is allocated; the dummy
last picture has its luma plane filled with 0 and both chroma planes
filled with the mid-scale 0x80 over the memset regions (bytes outside
remain untouched), while the dummy next picture receives no pixel fill. -/
theorem c6_dummy_fill (h ls0 ls1 ls2 vshift : Nat) (pic : FramePlanes)
    (i : Nat) :
    (i < h * ls0 →
      (fillDummyLastPicture h ls0 ls1 ls2 vshift pic).data0 i = 0) ∧
    (i < (h >>> vshift) * ls1 →
      (fillDummyLastPicture h ls0 ls1 ls2 vshift pic).data1 i = midScaleByte) ∧
    (i < (h >>> vshift) * ls2 →
      (fillDummyLastPicture h ls0 ls1 ls2 vshift pic).data2 i = midScaleByte) ∧
    (i ≥ h * ls0 →
      (fillDummyLastPicture h ls0 ls1 ls2 vshift pic).data0 i = pic.data0 i) ∧
    fillDummyNextPicture pic = pic ∧
    needsDummyLast false false true = true ∧
    needsDummyNext false true = true := by
  refine ⟨?_, ?_, ?_, ?_, rfl, rfl, rfl⟩
  · intro hi
    rw [fillDummyLastPicture]
    exact if_pos hi
  · intro hi
    rw [fillDummyLastPicture]
    exact if_pos hi
  · intro hi
    rw [fillDummyLastPicture]
    exact if_pos hi
  · intro hi
    rw [fillDummyLastPicture]
    exact if_neg (not_lt.mpr hi)

/-- C6 witness: the dummy-fill characterization at concrete geometry. -/
theorem c6_dummy_fill_witness :
    (0 : Nat) < 16 * 16 ∧
    (fillDummyLastPicture 16 16 8 8 1 stalePlanes).data0 0 = 0 :=
  ⟨by decide, (c6_dummy_fill 16 16 8 8 1 stalePlanes 0).1 (by decide)⟩

/-! Claim C9: `ff_update_duplicate_context`. -/

/-- The fields of `MpegEncContext` relevant to
`backup_duplicate_context` / `ff_update_duplicate_context`: every field
of the COPY list (private buffer pointers modelled as `Nat` addresses,
0 meaning NULL, plus the per-thread scalars), the derived `pblocks`
pointer array, the VCR2 codec-tag flag, and a sample of the remaining
scalar state that `memcpy` takes from `src`. -/
structure DupCtx where
  edge_emu_buffer : Nat
  me_scratchpad : Nat
  me_temp : Nat
  rd_scratchpad : Nat
  b_scratchpad : Nat
  obmc_scratchpad : Nat
  me_map : Nat
  me_score_map : Nat
  blocks : Nat
  block : Nat
  start_mb_y : Nat
  end_mb_y : Nat
  me_map_generation : Nat
  pb : Nat
  dct_error_sum : Nat
  dct_count0 : Nat
  dct_count1 : Nat
  ac_val_base : Nat
  ac_val0 : Nat
  ac_val1 : Nat
  ac_val2 : Nat
  pblocks : Nat → Nat
  codec_tag_vcr2 : Bool
  linesize : Nat
  uvlinesize : Nat
  mb_height : Nat
  qscale : Int
  pict_type : Nat

/-- `backup_duplicate_context(bak, src)`: copy exactly the COPY-listed
fields of `src` over `bak`. -/
def backup_duplicate_context (bak src : DupCtx) : DupCtx :=
  { bak with
    edge_emu_buffer := src.edge_emu_buffer
    me_scratchpad := src.me_scratchpad
    me_temp := src.me_temp
    rd_scratchpad := src.rd_scratchpad
    b_scratchpad := src.b_scratchpad
    obmc_scratchpad := src.obmc_scratchpad
    me_map := src.me_map
    me_score_map := src.me_score_map
    blocks := src.blocks
    block := src.block
    start_mb_y := src.start_mb_y
    end_mb_y := src.end_mb_y
    me_map_generation := src.me_map_generation
    pb := src.pb
    dct_error_sum := src.dct_error_sum
    dct_count0 := src.dct_count0
    dct_count1 := src.dct_count1
    ac_val_base := src.ac_val_base
    ac_val0 := src.ac_val0
    ac_val1 := src.ac_val1
    ac_val2 := src.ac_val2 }

/-- The `pblocks` fixup `for (i...) dst->pblocks[i] = &dst->block[i]`,
followed by `exchange_uv` (swap entries 4 and 5) for the VCR2 codec tag. -/
def fixupPblocks (d : DupCtx) : DupCtx :=
  let base : Nat → Nat := fun i => d.block + i
  { d with pblocks := fun i =>
      if d.codec_tag_vcr2 then
        (if i = 4 then base 5 else if i = 5 then base 4 else base i)
      else base i }

/-- `frame_size_alloc` as called from `ff_update_duplicate_context` when
`dst->edge_emu_buffer` is NULL after the copy-back: allocate a fresh edge
buffer and a fresh shared scratchpad, aliasing `me.temp`, `rd`/`b`
scratchpads at offset 0 and the obmc scratchpad at offset 16. -/
def frame_size_alloc (freshEdge freshScratch : Nat) (d : DupCtx) : DupCtx :=
  { d with
    edge_emu_buffer := freshEdge
    me_scratchpad := freshScratch
    me_temp := freshScratch
    rd_scratchpad := freshScratch
    b_scratchpad := freshScratch
    obmc_scratchpad := freshScratch + 16 }

/-- `ff_update_duplicate_context(dst, src)`: back up `dst`'s COPY-listed
fields, `memcpy` the whole of `src` over `dst`, copy the backup back,
fix up `pblocks` (and swap UV for VCR2), and reallocate the scratch
buffers if the edge buffer pointer is NULL. -/
def ff_update_duplicate_context (freshEdge freshScratch : Nat)
    (dst src : DupCtx) : DupCtx :=
  let bak := backup_duplicate_context src dst
  let d1 := src
  let d2 := backup_duplicate_context d1 bak
  let d3 := fixupPblocks d2
  if d3.edge_emu_buffer = 0 then frame_size_alloc freshEdge freshScratch d3
  else d3

/-- C9 (counterexample): the claim says every scalar field outside the
scratch pointers and the row range is copied from `src`; but
`me.map_generation` (with `me.map`, `me.score_map`, `pb`,
`dct_error_sum`, `dct_count[01]`) is in the backup COPY list, so `dst`
keeps its own value 7 instead of taking 3 from `src`. -/
theorem c9_counterexample :
    (ff_update_duplicate_context 100 200
      ⟨1, 2, 2, 2, 2, 18, 5, 6, 9, 10, 11, 12, 7, 13, 14, 15, 16, 20, 21, 22, 23,
        fun _ => 0, false, 640, 320, 30, 8, 1⟩
      ⟨31, 32, 32, 32, 32, 48, 35, 36, 39, 40, 41, 42, 3, 43, 44, 45, 46, 50, 51, 52, 53,
        fun _ => 0, false, 1280, 640, 45, 12, 2⟩).me_map_generation = 7 ∧
    (7 : Nat) ≠ 3 := by
  constructor
  · rfl
  · decide

/-- C9 (amended): provided `dst`'s edge buffer pointer is non-NULL (so no
scratch reallocation fires), `ff_update_duplicate_context` preserves from
`dst` all COPY-listed fields — the scratch-buffer pointers (edge buffer,
the me/rd/b/obmc scratchpads, the coefficient block array and the ac_val
buffers) and the row range (`start_mb_y`, `end_mb_y`), but also the
motion-estimation working state (`me.map`, `me.score_map`,
`me.map_generation`), the bitstream writer `pb` and the DCT error
accumulators (`dct_error_sum`, `dct_count[01]`) — while the remaining
scalar state is copied from `src`; `pblocks` is recomputed from `dst`'s
own coefficient block array. -/
theorem c9_update_duplicate_context (freshEdge freshScratch : Nat)
    (dst src : DupCtx) (hedge : dst.edge_emu_buffer ≠ 0) :
    (ff_update_duplicate_context freshEdge freshScratch dst src).edge_emu_buffer = dst.edge_emu_buffer ∧
    (ff_update_duplicate_context freshEdge freshScratch dst src).me_scratchpad = dst.me_scratchpad ∧
    (ff_update_duplicate_context freshEdge freshScratch dst src).me_temp = dst.me_temp ∧
    (ff_update_duplicate_context freshEdge freshScratch dst src).rd_scratchpad = dst.rd_scratchpad ∧
    (ff_update_duplicate_context freshEdge freshScratch dst src).b_scratchpad = dst.b_scratchpad ∧
    (ff_update_duplicate_context freshEdge freshScratch dst src).obmc_scratchpad = dst.obmc_scratchpad ∧
    (ff_update_duplicate_context freshEdge freshScratch dst src).me_map = dst.me_map ∧
    (ff_update_duplicate_context freshEdge freshScratch dst src).me_score_map = dst.me_score_map ∧
    (ff_update_duplicate_context freshEdge freshScratch dst src).blocks = dst.blocks ∧
    (ff_update_duplicate_context freshEdge freshScratch dst src).block = dst.block ∧
    (ff_update_duplicate_context freshEdge freshScratch dst src).start_mb_y = dst.start_mb_y ∧
    (ff_update_duplicate_context freshEdge freshScratch dst src).end_mb_y = dst.end_mb_y ∧
    (ff_update_duplicate_context freshEdge freshScratch dst src).me_map_generation = dst.me_map_generation ∧
    (ff_update_duplicate_context freshEdge freshScratch dst src).pb = dst.pb ∧
    (ff_update_duplicate_context freshEdge freshScratch dst src).dct_error_sum = dst.dct_error_sum ∧
    (ff_update_duplicate_context freshEdge freshScratch dst src).dct_count0 = dst.dct_count0 ∧
    (ff_update_duplicate_context freshEdge freshScratch dst src).dct_count1 = dst.dct_count1 ∧
    (ff_update_duplicate_context freshEdge freshScratch dst src).ac_val_base = dst.ac_val_base ∧
    (ff_update_duplicate_context freshEdge freshScratch dst src).ac_val0 = dst.ac_val0 ∧
    (ff_update_duplicate_context freshEdge freshScratch dst src).ac_val1 = dst.ac_val1 ∧
    (ff_update_duplicate_context freshEdge freshScratch dst src).ac_val2 = dst.ac_val2 ∧
    (ff_update_duplicate_context freshEdge freshScratch dst src).linesize = src.linesize ∧
    (ff_update_duplicate_context freshEdge freshScratch dst src).uvlinesize = src.uvlinesize ∧
    (ff_update_duplicate_context freshEdge freshScratch dst src).mb_height = src.mb_height ∧
    (ff_update_duplicate_context freshEdge freshScratch dst src).qscale = src.qscale ∧
    (ff_update_duplicate_context freshEdge freshScratch dst src).pict_type = src.pict_type ∧
    (ff_update_duplicate_context freshEdge freshScratch dst src).codec_tag_vcr2 = src.codec_tag_vcr2 := by
  have hne : (fixupPblocks (backup_duplicate_context src
      (backup_duplicate_context src dst))).edge_emu_buffer ≠ 0 := by
    rw [fixupPblocks, backup_duplicate_context, backup_duplicate_context]
    exact hedge
  rw [ff_update_duplicate_context]
  simp only [if_neg hne]
  rw [fixupPblocks, backup_duplicate_context, backup_duplicate_context]
  exact ⟨rfl, rfl, rfl, rfl, rfl, rfl, rfl, rfl, rfl, rfl, rfl, rfl, rfl, rfl,
    rfl, rfl, rfl, rfl, rfl, rfl, rfl, rfl, rfl, rfl, rfl, rfl, rfl⟩

/-- C9 witness: the field-preservation characterization at the concrete
contexts of the counterexample. -/
theorem c9_update_duplicate_context_witness :
    (1 : Nat) ≠ 0 ∧
    (ff_update_duplicate_context 100 200
      ⟨1, 2, 2, 2, 2, 18, 5, 6, 9, 10, 11, 12, 7, 13, 14, 15, 16, 20, 21, 22, 23,
        fun _ => 0, false, 640, 320, 30, 8, 1⟩
      ⟨31, 32, 32, 32, 32, 48, 35, 36, 39, 40, 41, 42, 3, 43, 44, 45, 46, 50, 51, 52, 53,
        fun _ => 0, false, 1280, 640, 45, 12, 2⟩).start_mb_y = 11 := by
  refine ⟨by decide, ?_⟩
  have h := c9_update_duplicate_context 100 200
    ⟨1, 2, 2, 2, 2, 18, 5, 6, 9, 10, 11, 12, 7, 13, 14, 15, 16, 20, 21, 22, 23,
      fun _ => 0, false, 640, 320, 30, 8, 1⟩
    ⟨31, 32, 32, 32, 32, 48, 35, 36, 39, 40, 41, 42, 3, 43, 44, 45, 46, 50, 51, 52, 53,
      fun _ => 0, false, 1280, 640, 45, 12, 2⟩
    (by decide)
  exact h.2.2.2.2.2.2.2.2.2.2.1

/-! Claim C8: `ff_mpv_lowest_referenced_row` and the await-progress
ordering of `mpv_decode_mb_internal`. -/

/-- The motion-vector type switch of `ff_mpv_lowest_referenced_row`:
16x16, 16x8 and 8x8 frame motion are handled; anything else takes the
`unhandled` path. -/
inductive MvType where
  | t16x16 : MvType
  | t16x8 : MvType
  | t8x8 : MvType
  | other : MvType

/-- The number of vertical motion vectors examined per type. -/
def mvCount : MvType → Nat
  | .t16x16 => 1
  | .t16x8 => 2
  | .t8x8 => 4
  | .other => 0

/-- The state read by `ff_mpv_lowest_referenced_row` and by the
motion-handling block of `mpv_decode_mb_internal`: `mv dir i` is the
vertical component `s->mv[dir][i][1]`. -/
structure MCState where
  picture_structure_frame : Bool
  mcsel : Bool
  quarter_sample : Bool
  mv_type : MvType
  mv : Nat → Nat → Int
  mb_y : Int
  mb_height : Int
  mv_dir_forward : Bool
  mv_dir_backward : Bool
  frame_thread : Bool

/-- `ff_mpv_lowest_referenced_row(s, dir)`: for frame pictures without
`mcsel` and a handled motion type, scale each vertical motion vector to
quarter-pel (`my << qpel_shift`), take the worst-case magnitude
`max(-my_min, my_max)`, convert to macroblock rows
(`(x + 63) >> 6`), and clamp `mb_y + off` into `[0, mb_height-1]`;
otherwise return the last row `mb_height - 1`. -/
def ff_mpv_lowest_referenced_row (s : MCState) (dir : Nat) : Int :=
  let qpel_shift : Nat := if s.quarter_sample then 0 else 1
  if !s.picture_structure_frame || s.mcsel then s.mb_height - 1
  else
    match s.mv_type with
    | .other => s.mb_height - 1
    | t =>
      let mys := (List.range (mvCount t)).map (fun i => s.mv dir i * 2 ^ qpel_shift)
      let my_max := mys.foldl max (mys.headD 0)
      let my_min := mys.foldl min (mys.headD 0)
      let off := (max (-my_min) my_max + 63).fdiv 64
      min (max (s.mb_y + off) 0) (s.mb_height - 1)

/-- An event of the motion-handling block of `mpv_decode_mb_internal`:
either `ff_thread_await_progress(ref_tf, row, 0)` on the reference for
direction `dir`, or the `ff_mpv_motion` call for direction `dir`. -/
inductive MBEvent where
  | awaitProgress (dir : Nat) (row : Int) : MBEvent
  | motionComp (dir : Nat) : MBEvent

/-- The event sequence the decoder executes for a non-intra macroblock:
under frame threading it first awaits progress up to
`ff_mpv_lowest_referenced_row` for each used prediction direction, then
performs the motion compensation for each used direction. -/
def mpv_decode_mb_motion_trace (s : MCState) : List MBEvent :=
  (if s.frame_thread then
    (if s.mv_dir_forward then
      [MBEvent.awaitProgress 0 (ff_mpv_lowest_referenced_row s 0)] else []) ++
    (if s.mv_dir_backward then
      [MBEvent.awaitProgress 1 (ff_mpv_lowest_referenced_row s 1)] else [])
   else []) ++
  (if s.mv_dir_forward then [MBEvent.motionComp 0] else []) ++
  (if s.mv_dir_backward then [MBEvent.motionComp 1] else [])

theorem lowest_referenced_row_bounds (s : MCState) (dir : Nat)
    (hmb : 1 ≤ s.mb_height) :
    0 ≤ ff_mpv_lowest_referenced_row s dir ∧
    ff_mpv_lowest_referenced_row s dir ≤ s.mb_height - 1 := by
  rw [ff_mpv_lowest_referenced_row]
  by_cases hframe : (!s.picture_structure_frame || s.mcsel) = true
  · rw [if_pos hframe]
    exact ⟨by omega, le_refl _⟩
  · rw [if_neg hframe]
    cases s.mv_type with
    | other =>
      refine ⟨?_, le_refl _⟩
      show (0 : Int) ≤ s.mb_height - 1
      omega
    | t16x16 =>
      exact ⟨le_min (le_max_right _ _) (by omega), min_le_right _ _⟩
    | t16x8 =>
      exact ⟨le_min (le_max_right _ _) (by omega), min_le_right _ _⟩
    | t8x8 =>
      exact ⟨le_min (le_max_right _ _) (by omega), min_le_right _ _⟩

/-- C8 (confirmed, functional part): under frame threading, for each used
prediction direction the decode trace contains an await-progress event
with row `ff_mpv_lowest_referenced_row s dir` strictly before the motion
compensation of that direction (as a sublist), and for every state with
at least one macroblock row the awaited row lies in `[0, mb_height - 1]`
— it is the clamp of `mb_y` plus the worst-case row extent of the
vertical motion vectors for 16x16/16x8/8x8 frame motion, and the last
row `mb_height - 1` in all other cases. -/
theorem c8_await_before_motion (s : MCState)
    (hthread : s.frame_thread = true) (hmb : 1 ≤ s.mb_height) :
    (s.mv_dir_forward = true →
      [MBEvent.awaitProgress 0 (ff_mpv_lowest_referenced_row s 0),
       MBEvent.motionComp 0].Sublist (mpv_decode_mb_motion_trace s)) ∧
    (s.mv_dir_backward = true →
      [MBEvent.awaitProgress 1 (ff_mpv_lowest_referenced_row s 1),
       MBEvent.motionComp 1].Sublist (mpv_decode_mb_motion_trace s)) ∧
    (∀ dir, 0 ≤ ff_mpv_lowest_referenced_row s dir ∧
      ff_mpv_lowest_referenced_row s dir ≤ s.mb_height - 1) := by
  refine ⟨?_, ?_, fun dir => lowest_referenced_row_bounds s dir hmb⟩
  · intro hfwd
    rw [mpv_decode_mb_motion_trace, hthread, hfwd]
    cases hbwd : s.mv_dir_backward with
    | false =>
      simp only [if_pos, if_neg, Bool.false_eq_true, if_false, if_true,
        List.append_nil, List.nil_append]
      exact List.Sublist.refl _
    | true =>
      simp only [if_pos, if_true]
      refine List.Sublist.cons₂ _ ?_
      refine List.Sublist.cons _ ?_
      exact List.Sublist.cons₂ _ (List.nil_sublist _)
  · intro hbwd
    rw [mpv_decode_mb_motion_trace, hthread, hbwd]
    cases hfwd : s.mv_dir_forward with
    | false =>
      simp only [if_pos, if_neg, Bool.false_eq_true, if_false, if_true,
        List.append_nil, List.nil_append]
      exact List.Sublist.refl _
    | true =>
      simp only [if_pos, if_true]
      refine List.Sublist.cons _ ?_
      refine List.Sublist.cons₂ _ ?_
      refine List.Sublist.cons _ ?_
      exact List.Sublist.cons₂ _ (List.nil_sublist _)

/-- A concrete decode state: frame picture, 16x16 frame motion with
vertical vector -17, forward prediction only, 9 macroblock rows. -/
def mcState0 : MCState :=
  { picture_structure_frame := true
    mcsel := false
    quarter_sample := false
    mv_type := MvType.t16x16
    mv := fun _ _ => -17
    mb_y := 3
    mb_height := 9
    mv_dir_forward := true
    mv_dir_backward := false
    frame_thread := true }

/-- C8 witness: the ordering and bound at a concrete state. -/
theorem c8_await_before_motion_witness :
    mcState0.frame_thread = true ∧ 1 ≤ mcState0.mb_height ∧
    ((mcState0.mv_dir_forward = true →
      [MBEvent.awaitProgress 0 (ff_mpv_lowest_referenced_row mcState0 0),
       MBEvent.motionComp 0].Sublist (mpv_decode_mb_motion_trace mcState0)) ∧
    (mcState0.mv_dir_backward = true →
      [MBEvent.awaitProgress 1 (ff_mpv_lowest_referenced_row mcState0 1),
       MBEvent.motionComp 1].Sublist (mpv_decode_mb_motion_trace mcState0)) ∧
    (∀ dir, 0 ≤ ff_mpv_lowest_referenced_row mcState0 dir ∧
      ff_mpv_lowest_referenced_row mcState0 dir ≤ mcState0.mb_height - 1)) :=
  ⟨rfl, by decide, c8_await_before_motion mcState0 rfl (by decide)⟩
